import Mathlib

/-!
Verification of the `solana-accounts-fractal1` repository: a sharded in-memory
accounts index (`fractal-shard`), an LZ4 codec wrapper (`fractal-rle`) and an
axum RPC front end (`rpc`).  Rust structures are shallowly embedded: byte
sequences become `List Nat` (each entry `< 256`), `DashMap`s become association
lists, `u64` arithmetic is `Nat` reduced `% 2^64` where overflow matters, and
fallible Rust code returns `Option` / `Except`.  A Rust `panic!` / `expect`
outcome is represented by `PanicOr.panic`.
-/

namespace SolanaFractal

/-- Outcome of Rust code that may abort via `panic!` / `.expect(msg)`:
either a normal value or a panic carrying the `expect` message. -/
inductive PanicOr (α : Type) where
  | panic (msg : String)
  | ok (val : α)
deriving DecidableEq, Repr

/-! ## Association-list maps

`DashMap<K, V>` and the per-shard maps are embedded as association lists with
the usual lookup / insert-or-replace / remove operations. -/

/-- Map lookup over an association list (models `DashMap::get`). -/
def lookupA {κ α : Type} [DecidableEq κ] (k : κ) : List (κ × α) → Option α
  | [] => none
  | (k₂, v) :: rest => if k₂ = k then some v else lookupA k rest

/-- Insert-or-replace over an association list (models `DashMap::insert`). -/
def insertA {κ α : Type} [DecidableEq κ] (k : κ) (v : α) : List (κ × α) → List (κ × α)
  | [] => [(k, v)]
  | (k₂, v₂) :: rest => if k₂ = k then (k, v) :: rest else (k₂, v₂) :: insertA k v rest

/-- Key removal over an association list (models map `remove`; keys are unique
in every reachable map, so removing all occurrences coincides with removing
the entry). -/
def eraseA {κ α : Type} [DecidableEq κ] (k : κ) (l : List (κ × α)) : List (κ × α) :=
  l.filter (fun e => decide (e.1 ≠ k))

/-! ## Data model

`solana_sdk::pubkey::Pubkey` is a 32-byte array; `solana_sdk::account::Account`
is `{lamports: u64, data: Vec<u8>, owner: Pubkey, executable: bool,
rent_epoch: u64}`. -/

/-- A Solana public key: its raw bytes (32 of them for every real key). -/
structure Pubkey where
  bytes : List Nat
deriving DecidableEq, Repr

/-- `solana_sdk::account::Account`. -/
structure Account where
  lamports : Nat
  data : List Nat
  owner : Pubkey
  executable : Bool
  rent_epoch : Nat
deriving DecidableEq, Repr

/-! ## Base58 (the `bs58` crate, as used by `Pubkey::try_from(&str)` and
`Pubkey::to_string`) -/

/-- The Bitcoin base58 alphabet used by `bs58`. -/
def base58Alphabet : List Char :=
  "123456789ABCDEFGHJKLMNPQRSTUVWXYZabcdefghijkmnopqrstuvwxyz".toList

/-- Value of one base58 digit character, `none` for a character outside the
alphabet. -/
def b58Digit (c : Char) : Option Nat :=
  base58Alphabet.findIdx? (fun d => d = c)

/-- Digit expansion of a natural number in base `b`, most significant digit
first (no leading zero digits; the empty list for `0`).  Structurally
recursive on the `fuel` bound so that it reduces inside the kernel; `fuel = n`
always suffices since the value shrinks by a factor `b ≥ 2` per digit. -/
def natDigitsAux (b : Nat) : Nat → Nat → List Nat
  | 0, _ => []
  | fuel + 1, n => if n = 0 then [] else natDigitsAux b fuel (n / b) ++ [n % b]

/-- Big-endian byte expansion of a natural number (no leading zero bytes;
the empty list for `0`). -/
def natToBE (n : Nat) : List Nat := natDigitsAux 256 n n

/-- Base58 digit expansion of a natural number, most significant digit
first. -/
def natToB58 (n : Nat) : List Char :=
  (natDigitsAux 58 n n).map (fun d => base58Alphabet.getD d '1')

/-- `Pubkey::try_from(&str)` / `Pubkey::from_str`: reject strings longer than
44 characters, base58-decode (one leading zero byte per leading `'1'`), and
require exactly 32 resulting bytes. -/
def pubkeyFromStr (s : String) : Option Pubkey :=
  if 44 < s.length then none
  else
    match s.toList.mapM b58Digit with
    | none => none
    | some ds =>
      let n := ds.foldl (fun acc d => 58 * acc + d) 0
      let z := (ds.takeWhile (fun d => d = 0)).length
      let bytes : List Nat := List.replicate z 0 ++ natToBE n
      if bytes.length = 32 then some ⟨bytes⟩ else none

/-- `Pubkey::to_string()`: base58 encoding, one `'1'` per leading zero byte. -/
def pubkeyToString (p : Pubkey) : String :=
  let z := (p.bytes.takeWhile (fun b => b = 0)).length
  let n := p.bytes.foldl (fun acc b => 256 * acc + b) 0
  String.mk (List.replicate z '1' ++ natToB58 n)

/-! ## Base64 (the `base64` crate's standard alphabet with padding, as used by
`base64::encode` / `base64::decode` in the RPC handlers) -/

/-- The standard base64 alphabet. -/
def base64Alphabet : List Char :=
  "ABCDEFGHIJKLMNOPQRSTUVWXYZabcdefghijklmnopqrstuvwxyz0123456789+/".toList

/-- Value of one base64 digit character, `none` for a character outside the
alphabet (`'='` included). -/
def b64Digit (c : Char) : Option Nat :=
  base64Alphabet.findIdx? (fun d => d = c)

/-- Character for a 6-bit value. -/
def b64Chr (n : Nat) : Char := base64Alphabet.getD n 'A'

/-- Base64 decoding of a character list: 4-character groups, padding allowed
only in the final group; any invalid character or length fails. -/
def b64DecodeGo : List Char → Option (List Nat)
  | [] => some []
  | [c1, c2, '=', '='] => do
      let v1 ← b64Digit c1
      let v2 ← b64Digit c2
      some [4 * v1 + v2 / 16]
  | [c1, c2, c3, '='] => do
      let v1 ← b64Digit c1
      let v2 ← b64Digit c2
      let v3 ← b64Digit c3
      some [4 * v1 + v2 / 16, 16 * (v2 % 16) + v3 / 4]
  | c1 :: c2 :: c3 :: c4 :: rest => do
      let v1 ← b64Digit c1
      let v2 ← b64Digit c2
      let v3 ← b64Digit c3
      let v4 ← b64Digit c4
      let tail ← b64DecodeGo rest
      some ([4 * v1 + v2 / 16, 16 * (v2 % 16) + v3 / 4, 64 * (v3 % 4) + v4] ++ tail)
  | _ => none

/-- `base64::decode`. -/
def base64Decode (s : String) : Option (List Nat) := b64DecodeGo s.toList

/-- Base64 encoding of a byte list, 3 bytes per 4-character group with `'='`
padding. -/
def b64EncodeGo : List Nat → List Char
  | [] => []
  | [b1] => [b64Chr (b1 / 4), b64Chr (16 * (b1 % 4)), '=', '=']
  | [b1, b2] => [b64Chr (b1 / 4), b64Chr (16 * (b1 % 4) + b2 / 16), b64Chr (4 * (b2 % 16)), '=']
  | b1 :: b2 :: b3 :: rest =>
      b64Chr (b1 / 4) :: b64Chr (16 * (b1 % 4) + b2 / 16) ::
        b64Chr (4 * (b2 % 16) + b3 / 64) :: b64Chr (b3 % 64) :: b64EncodeGo rest

/-- `base64::encode`. -/
def base64Encode (bs : List Nat) : String := String.mk (b64EncodeGo bs)

/-! ## The LZ4 codec (`fractal-rle`)

`fractal-rle`'s `compress`/`decompress` wrap the external `lz4` crate's frame
format.  Modelled from the spec: the `lz4` crate is an external dependency, so
its frame codec is embedded here at the level the repository relies on — an
LZ4 frame is the 4-byte magic `0x184D2204` (little endian), a frame
descriptor, a sequence of data blocks each preceded by a 4-byte little-endian
size whose most significant bit marks an uncompressed block, and a 4-byte zero
end mark.  The encoder is modelled as emitting uncompressed blocks of at most
the 64 KiB maximum block size (a valid LZ4 frame encoding); a block with the
compressed-flag clear would need the LZ4 sequence decoder, which this model
treats as a decode failure — no input produced by the modelled encoder ever
takes that branch. -/

/-- The LZ4 frame magic `0x184D2204`, little-endian byte order. -/
def lz4Magic : List Nat := [4, 34, 77, 24]

/-- 4-byte little-endian block-size header with the most significant bit set
(uncompressed block), for a size below `2^23`. -/
def blockHeader (n : Nat) : List Nat :=
  [n % 256, n / 256 % 256, n / 65536 % 256, 128]

/-- Encode a payload as uncompressed LZ4 data blocks of at most 64 KiB,
terminated by the zero end mark.  Structurally recursive on the `fuel` bound
(each step consumes at least one payload byte, so `data.length` steps always
suffice and the `0` case is unreachable from `encodeBlocks`). -/
def encodeBlocksAux : Nat → List Nat → List Nat
  | 0, _ => []
  | fuel + 1, data =>
    if data = [] then [0, 0, 0, 0]
    else
      blockHeader (min data.length 65536) ++ data.take 65536 ++
        encodeBlocksAux fuel (data.drop 65536)

/-- The block encoding of a payload. -/
def encodeBlocks (data : List Nat) : List Nat := encodeBlocksAux (data.length + 1) data

/-- Decode LZ4 data blocks up to the zero end mark.  Fails on truncated input
or on a block with the compressed flag (most significant bit of the fourth
size byte clear), which the model does not decode.  Structurally recursive on
the `fuel` bound; each step consumes at least four input bytes, so the
`input.length + 1` fuel given by `decodeBlocks` never runs out and the `0`
case is unreachable. -/
def decodeBlocksAux : Nat → List Nat → Option (List Nat)
  | 0, _ => none
  | fuel + 1, input =>
    match input with
    | b0 :: b1 :: b2 :: b3 :: rest =>
      if b0 = 0 ∧ b1 = 0 ∧ b2 = 0 ∧ b3 = 0 then some []
      else if 128 ≤ b3 then
        let size := b0 + 256 * b1 + 65536 * b2 + 16777216 * (b3 - 128)
        if size ≤ rest.length then
          (decodeBlocksAux fuel (rest.drop size)).map (fun tail => rest.take size ++ tail)
        else none
      else none
    | _ => none

/-- The block decoding of a byte stream. -/
def decodeBlocks (input : List Nat) : Option (List Nat) :=
  decodeBlocksAux (input.length + 1) input

/-- Parse the LZ4 frame header (magic plus frame descriptor with version bits
`01`), returning the remaining block bytes. -/
def lz4FrameHeader : List Nat → Option (List Nat)
  | 4 :: 34 :: 77 :: 24 :: flg :: _bd :: _hc :: rest =>
      if flg / 64 = 1 then some rest else none
  | _ => none

/-- `fractal_rle::compress`: build an LZ4 frame for `data`.  The Rust wrapper's
`expect`s fire only on I/O errors of the in-memory `Vec` sink, which cannot
occur, so the embedding is total. -/
def compress (data : List Nat) : List Nat :=
  lz4Magic ++ [64, 64, 0] ++ encodeBlocks data

/-- `fractal_rle::decompress`: `lz4::Decoder::new` aborts with
`expect("lz4 decoder")` when the frame header is invalid, and the stream copy
aborts with `expect("lz4 copy")` when the block data is corrupt — the wrapper
panics instead of returning an error. -/
def decompress (data : List Nat) : PanicOr (List Nat) :=
  match lz4FrameHeader data with
  | none => .panic "lz4 decoder"
  | some rest =>
    match decodeBlocks rest with
    | none => .panic "lz4 copy"
    | some out => .ok out

/-! ## Shard selection (`fractal-shard::shard_index`)

`shard_index` feeds the whole `Pubkey` through `std`'s `DefaultHasher`
(SipHash-1-3 with zero keys) and masks to 12 bits.  The derived `Hash` for
`Pubkey` hashes its 32-byte array: a little-endian `usize` length prefix
followed by the raw bytes. -/

/-- Truncation to 64 bits. -/
def w64 (n : Nat) : Nat := n % 18446744073709551616

/-- 64-bit left rotation (for values below `2^64`). -/
def rotl64 (n k : Nat) : Nat := w64 (n * 2 ^ k) ||| n / 2 ^ (64 - k)

/-- SipHash internal state. -/
structure SipState where
  v0 : Nat
  v1 : Nat
  v2 : Nat
  v3 : Nat
deriving Repr

/-- One SipHash round. -/
def sipround (s : SipState) : SipState :=
  let v0 := w64 (s.v0 + s.v1)
  let v1 := rotl64 s.v1 13
  let v1 := v1 ^^^ v0
  let v0 := rotl64 v0 32
  let v2 := w64 (s.v2 + s.v3)
  let v3 := rotl64 s.v3 16
  let v3 := v3 ^^^ v2
  let v0 := w64 (v0 + v3)
  let v3 := rotl64 v3 21
  let v3 := v3 ^^^ v0
  let v2 := w64 (v2 + v1)
  let v1 := rotl64 v1 17
  let v1 := v1 ^^^ v2
  let v2 := rotl64 v2 32
  ⟨v0, v1, v2, v3⟩

/-- Absorb one 64-bit message word with SipHash-1-3's single compression
round. -/
def sipCompress (s : SipState) (m : Nat) : SipState :=
  let s := { s with v3 := s.v3 ^^^ m }
  let s := sipround s
  { s with v0 := s.v0 ^^^ m }

/-- Little-endian word value of a byte list. -/
def leWord (bs : List Nat) : Nat :=
  bs.foldr (fun b acc => b + 256 * acc) 0

/-- Split a byte stream into full 8-byte little-endian words plus the
remainder bytes. -/
def sipSplit : List Nat → List Nat × List Nat
  | b0 :: b1 :: b2 :: b3 :: b4 :: b5 :: b6 :: b7 :: rest =>
      let (ws, t) := sipSplit rest
      (leWord [b0, b1, b2, b3, b4, b5, b6, b7] :: ws, t)
  | l => ([], l)

/-- SipHash-1-3 with zero keys over a byte stream — `DefaultHasher::new()`
followed by the written bytes and `finish()`. -/
def sipHash13 (bytes : List Nat) : Nat :=
  let (ws, tail) := sipSplit bytes
  let s : SipState :=
    ⟨0x736f6d6570736575, 0x646f72616e646f6d, 0x6c7967656e657261, 0x7465646279746573⟩
  let s := ws.foldl sipCompress s
  let b := w64 (bytes.length % 256 * 2 ^ 56 + leWord tail)
  let s := sipCompress s b
  let s := { s with v2 := s.v2 ^^^ 255 }
  let s := sipround (sipround (sipround s))
  s.v0 ^^^ s.v1 ^^^ s.v2 ^^^ s.v3

/-- Little-endian 8-byte encoding of a `usize` (the slice length prefix
written by `Hash for [u8]`). -/
def usizeLE (n : Nat) : List Nat :=
  [n % 256, n / 256 % 256, n / 65536 % 256, n / 16777216 % 256,
   n / 4294967296 % 256, n / 1099511627776 % 256,
   n / 281474976710656 % 256, n / 72057594037927936 % 256]

/-- `fractal_shard::shard_index`: hash the full key with `DefaultHasher` and
mask with `SHARD_MASK = (1 << 12) - 1`. -/
def shard_index (key : Pubkey) : Nat :=
  sipHash13 (usizeLE key.bytes.length ++ key.bytes) &&& 4095

/-! ## The sharded index (`fractal-shard::ShardedIndex`)

The `distributed` feature is off (its Redis code does not even type-check
against `fractal-rle`), so the embedded index is the primary shards plus the
secondary owner index.  The 4096 `DashMap` shards become a function from the
shard number to an association list; `owner_index` becomes an association
list from owner to its key bucket. -/

/-- `fractal_shard::ShardedIndex` (without the `distributed` feature's
`redis` field). -/
structure ShardedIndex where
  shards : Nat → List (Pubkey × Account)
  owner_index : List (Pubkey × List Pubkey)

/-- `ShardedIndex::default()`: 4096 empty shards, empty owner index. -/
def ShardedIndex.empty : ShardedIndex :=
  ⟨fun _ => [], []⟩

/-- `ShardedIndex::insert`: replace the record in shard
`shard_index(key)`, then append `key` to `owner_index[acc.owner]` unless
already present. -/
def ShardedIndex.insert (ix : ShardedIndex) (key : Pubkey) (acc : Account) : ShardedIndex :=
  let idx := shard_index key
  let shards := fun i => if i = idx then insertA key acc (ix.shards i) else ix.shards i
  let bucket := (lookupA acc.owner ix.owner_index).getD []
  let bucket := if key ∈ bucket then bucket else bucket ++ [key]
  ⟨shards, insertA acc.owner bucket ix.owner_index⟩

/-- `ShardedIndex::get` (no `distributed` feature): a lookup in the key's
shard. -/
def ShardedIndex.get (ix : ShardedIndex) (key : Pubkey) : Option Account :=
  lookupA key (ix.shards (shard_index key))

/-- `ShardedIndex::get_program_accounts`: if an owner bucket exists, resolve
each of its keys through `get`, dropping unresolved ones; otherwise scan every
shard and keep the entries whose record owner equals `program`. -/
def ShardedIndex.get_program_accounts (ix : ShardedIndex) (program : Pubkey) :
    List (Pubkey × Account) :=
  match lookupA program ix.owner_index with
  | some vec => vec.filterMap (fun pk => (ix.get pk).map (fun acc => (pk, acc)))
  | none =>
    (List.range 4096).flatMap (fun i =>
      (ix.shards i).filter (fun e => decide (e.2.owner = program)))

/-- The SPL token program key hard-coded in
`ShardedIndex::get_largest_token_accounts` (its `Pubkey::from_str(..).unwrap()`
succeeds on this fixed literal). -/
def token_program : Pubkey :=
  (pubkeyFromStr "TokenkegQfeZyiNwAJbNbGKPFXCWuBvf9Ss623VQ5DA").getD ⟨List.replicate 32 0⟩

/-- `ShardedIndex::get_largest_token_accounts`: all token-program accounts
whose first 32 data bytes equal the mint, sorted descending by lamports and
truncated to `limit` (`sort_unstable_by_key` with `Reverse`). -/
def ShardedIndex.get_largest_token_accounts (ix : ShardedIndex) (mint : Pubkey)
    (limit : Nat) : List (Pubkey × Account) :=
  let filtered := (ix.get_program_accounts token_program).filter
    (fun e => decide (32 ≤ e.2.data.length) && decide (e.2.data.take 32 = mint.bytes))
  (filtered.mergeSort (fun a b => b.2.lamports ≤ a.2.lamports)).take limit

/-- `ShardedIndex::len`: the sum of the shard sizes. -/
def ShardedIndex.len (ix : ShardedIndex) : Nat :=
  ((List.range 4096).map (fun i => (ix.shards i).length)).sum

/-- Modelled from the spec: `remove(key)` is described in §4.1 of the spec but
absent from the sources shipped under `src/` — "deletes from the primary shard
only; does not eagerly scrub owner-index buckets".  It erases the key from
shard `shard_index(key)` and leaves the owner index untouched. -/
def ShardedIndex.remove (ix : ShardedIndex) (key : Pubkey) : ShardedIndex :=
  ⟨fun i => if i = shard_index key then eraseA key (ix.shards i) else ix.shards i,
   ix.owner_index⟩

/-- The state reached from the empty index by a sequence of inserts (the only
mutations the sources perform). -/
def applyInserts (ops : List (Pubkey × Account)) : ShardedIndex :=
  ops.foldl (fun ix e => ix.insert e.1 e.2) ShardedIndex.empty

/-! ## The RPC server (`rpc::main.rs`)

Handlers are embedded as pure functions from the shared state, the request
headers and the request body to `Except (status, message) response` —
`Err((StatusCode, String))` on the Rust side.  HTTP headers become an
association list of strings. -/

namespace Rpc

open SolanaFractal

/-- Request headers: name/value pairs. -/
def Headers : Type := List (String × String)

/-- `rpc`'s shared `AppState` (without the `distributed` feature's `redis`
client; the broadcast sender is modelled separately as the event list fed to
`wsLoop`). -/
structure AppState where
  index : ShardedIndex
  api_key : Option String
  downstream_rpc : String

/-- A memcmp / datasize account filter (`rpc::Filter`). -/
inductive Filter where
  | memcmp (offset : Nat) (bytes : String)
  | dataSize (size : Nat)
deriving DecidableEq, Repr

/-- `rpc::GetProgramAccountsReq`. -/
structure GetProgramAccountsReq where
  program : String
  limit : Option Nat
  offset : Option Nat
  filters : Option (List Filter)
deriving Repr

/-- `rpc::AccountResp`: the wire shape of one account. -/
structure AccountResp where
  pubkey : String
  lamports : Nat
  data : String
  owner : String
  executable : Bool
  rent_epoch : Nat
deriving DecidableEq, Repr

/-- Build an `AccountResp` from a key/record pair, as every handler does. -/
def accountResp (k : Pubkey) (acc : Account) : AccountResp :=
  ⟨pubkeyToString k, acc.lamports, base64Encode acc.data, pubkeyToString acc.owner,
   acc.executable, acc.rent_epoch⟩

/-- First value of a header, by name (models `HeaderMap::get`). -/
def headerGet (hs : Headers) (name : String) : Option String :=
  lookupA name hs

/-- `rpc::check_api_key`: when an API key is configured, require an
`x-api-key` header equal to it; otherwise pass. -/
def check_api_key (state : AppState) (headers : Headers) : Except (Nat × String) Unit :=
  match state.api_key with
  | some required =>
    match headerGet headers "x-api-key" with
    | some got => if got = required then .ok () else
        .error (401, "missing or invalid API key")
    | none => .error (401, "missing or invalid API key")
  | none => .ok ()

/-- Whether one account passes one filter (the body of `apply_filters`'
closure): a malformed base64 pattern decodes to the empty byte string
(`unwrap_or_default`), and an out-of-range compare is `false`. -/
def filterPass (acc : Account) : Filter → Bool
  | .memcmp offset bytes =>
    let decoded := (base64Decode bytes).getD []
    if acc.data.length < offset + decoded.length then false
    else decide ((acc.data.drop offset).take decoded.length = decoded)
  | .dataSize size => decide (acc.data.length = size)

/-- `rpc::apply_filters`: keep the accounts passing every filter. -/
def apply_filters (accounts : List (Pubkey × Account)) (filters : List Filter) :
    List (Pubkey × Account) :=
  accounts.filter (fun e => filters.all (filterPass e.2))

/-- The filter step of `get_program_accounts`: applied only when the request
carries a filter list. -/
def gpaFiltered (ix : ShardedIndex) (program : Pubkey) (filters : Option (List Filter)) :
    List (Pubkey × Account) :=
  match filters with
  | some fs => apply_filters (ix.get_program_accounts program) fs
  | none => ix.get_program_accounts program

/-- The pagination block shared verbatim by `get_program_accounts` and
`get_token_accounts_by_owner`: `drain(0..offset)` when `offset < len` else
`clear()`, then `truncate(limit)`. -/
def paginate {α : Type} (offset limit : Option Nat) (xs : List α) : List α :=
  let xs := match offset with
    | some off => if off < xs.length then xs.drop off else []
    | none => xs
  match limit with
  | some l => xs.take l
  | none => xs

/-- `rpc::get_program_accounts`: auth, parse the program key, fetch, filter,
paginate, serialize (Rust's `?` early returns become `match` on the
`Except`). -/
def get_program_accounts (state : AppState) (headers : Headers)
    (req : GetProgramAccountsReq) : Except (Nat × String) (List AccountResp) :=
  match check_api_key state headers with
  | .error e => .error e
  | .ok () =>
    match pubkeyFromStr req.program with
    | none => .error (400, "invalid program pubkey")
    | some program =>
      .ok ((paginate req.offset req.limit (gpaFiltered state.index program req.filters)).map
        (fun e => accountResp e.1 e.2))

/-- `rpc::GetMultipleAccountsReq` (the unused `encoding` field dropped). -/
structure GetMultipleAccountsReq where
  pubkeys : List String
deriving Repr

/-- `rpc::get_multiple_accounts`: parse every key (any parse failure fails the
whole request), and produce `some`/`none` per position. -/
def get_multiple_accounts (state : AppState) (headers : Headers)
    (req : GetMultipleAccountsReq) : Except (Nat × String) (List (Option AccountResp)) :=
  match check_api_key state headers with
  | .error e => .error e
  | .ok () =>
    req.pubkeys.mapM (fun s =>
      match pubkeyFromStr s with
      | none => Except.error (400, "invalid pubkey")
      | some pk => Except.ok ((state.index.get pk).map (accountResp pk)))

/-- `rpc::GetAccountInfoReq` (the unused `encoding` field dropped). -/
structure GetAccountInfoReq where
  pubkey : String
deriving Repr

/-- `rpc::get_account_info`. -/
def get_account_info (state : AppState) (headers : Headers)
    (req : GetAccountInfoReq) : Except (Nat × String) (Option AccountResp) :=
  match check_api_key state headers with
  | .error e => .error e
  | .ok () =>
    match pubkeyFromStr req.pubkey with
    | none => .error (400, "invalid pubkey")
    | some pk => .ok ((state.index.get pk).map (accountResp pk))

/-- `rpc::GetTokenAccountsByOwnerReq`. -/
structure GetTokenAccountsByOwnerReq where
  owner : String
  mint : Option String
  limit : Option Nat
  offset : Option Nat
deriving Repr

/-- The fast-path candidate list of `get_token_accounts_by_owner`: the owner
bucket resolved through `get`, or empty when no bucket exists. -/
def tokenCandidates (ix : ShardedIndex) (owner : Pubkey) : List (Pubkey × Account) :=
  match lookupA owner ix.owner_index with
  | some vec => vec.filterMap (fun pk => (ix.get pk).map (fun acc => (pk, acc)))
  | none => []

/-- The mint-filter step of `get_token_accounts_by_owner`: `retain` the
accounts whose first 32 data bytes equal the mint; a malformed mint string is
a 400 error. -/
def tokenMintFiltered (accounts : List (Pubkey × Account)) (mint : Option String) :
    Except (Nat × String) (List (Pubkey × Account)) :=
  match mint with
  | some ms =>
    match pubkeyFromStr ms with
    | some mint_pk => .ok (accounts.filter (fun e =>
        decide (32 ≤ e.2.data.length) && decide (e.2.data.take 32 = mint_pk.bytes)))
    | none => .error (400, "invalid mint")
  | none => .ok accounts

/-- `rpc::get_token_accounts_by_owner`: auth, parse the owner, fast-path
candidates, optional mint filter, pagination, serialize. -/
def get_token_accounts_by_owner (state : AppState) (headers : Headers)
    (req : GetTokenAccountsByOwnerReq) : Except (Nat × String) (List AccountResp) :=
  match check_api_key state headers with
  | .error e => .error e
  | .ok () =>
    match pubkeyFromStr req.owner with
    | none => .error (400, "invalid owner pubkey")
    | some owner_pk =>
      match tokenMintFiltered (tokenCandidates state.index owner_pk) req.mint with
      | .error e => .error e
      | .ok accounts =>
        .ok ((paginate req.offset req.limit accounts).map (fun e => accountResp e.1 e.2))

/-- `rpc::GetLargestTokenAccountsReq`. -/
structure GetLargestTokenAccountsReq where
  mint : String
  limit : Option Nat
deriving Repr

/-- `rpc::get_largest_token_accounts` (`limit` defaults to 10). -/
def get_largest_token_accounts (state : AppState) (headers : Headers)
    (req : GetLargestTokenAccountsReq) : Except (Nat × String) (List AccountResp) :=
  match check_api_key state headers with
  | .error e => .error e
  | .ok () =>
    match pubkeyFromStr req.mint with
    | none => .error (400, "invalid mint")
    | some mint_pk =>
      .ok ((state.index.get_largest_token_accounts mint_pk (req.limit.getD 10)).map
        (fun e => accountResp e.1 e.2))

/-- `rpc::simulate_transaction`: forward the opaque body to the downstream
target (modelled as a function from URL and body to either a transport error
or a status/body pair) and pass status and body through; a transport failure
is a 502. -/
def simulate_transaction (state : AppState) (headers : Headers)
    (downstream : String → String → Except String (Nat × String))
    (body : String) : Except (Nat × String) (Nat × String) :=
  match check_api_key state headers with
  | .error e => .error e
  | .ok () =>
    match downstream (state.downstream_rpc ++ "/simulateTransaction") body with
    | .ok (status, respBody) => .ok (status, respBody)
    | .error e => .error (502, "downstream error: " ++ e)

/-! ### WebSocket subscriptions -/

/-- `rpc::WsEvent`. -/
inductive WsEvent where
  | accountUpdated (pubkey : String) (lamports : Nat) (slot : Nat)
  | slotUpdated (slot : Nat)
deriving DecidableEq, Repr

/-- `rpc::WsQuery`: the optional `program` / `owner` query parameters. -/
structure WsQuery where
  program : Option String
  owner : Option String
deriving Repr

/-- The per-event filter decision of `handle_socket`.  With a program filter
the event key is parsed (`.unwrap()` — `none` here marks that panic) and
resolved through the index, comparing the record's owner; with an owner
filter the event key string is compared with the owner's text form directly;
otherwise the event passes.  `SlotUpdated` always passes. -/
def wsEventPass (ix : ShardedIndex) (program_filter owner_filter : Option Pubkey) :
    WsEvent → Option Bool
  | .accountUpdated pubkey _ _ =>
    match program_filter with
    | some p =>
      match pubkeyFromStr pubkey with
      | some pk =>
        match ix.get pk with
        | some acc => some (decide (acc.owner = p))
        | none => some false
      | none => none
    | none =>
      match owner_filter with
      | some o => some (decide (pubkey = pubkeyToString o))
      | none => some true
  | .slotUpdated _ => some true

/-- The delivery loop of `handle_socket` over a stream of events: deliver the
events whose filter decision is `true`; a panic (`none`) kills the socket
task, dropping everything after it. -/
def wsLoop (ix : ShardedIndex) (program_filter owner_filter : Option Pubkey) :
    List WsEvent → List WsEvent
  | [] => []
  | e :: rest =>
    match wsEventPass ix program_filter owner_filter e with
    | none => []
    | some true => e :: wsLoop ix program_filter owner_filter rest
    | some false => wsLoop ix program_filter owner_filter rest

/-- `rpc::websocket_handler` composed with `handle_socket`: the upgrade is
unconditional — the handler body is a single `ws.on_upgrade` and never reads
`state.api_key` or any request header — and the socket then receives the
events passing the query-parameter filters
(`params.program/owner.and_then(Pubkey::try_from(..).ok())`). -/
def websocket_handler (state : AppState) (params : WsQuery)
    (events : List WsEvent) : List WsEvent :=
  wsLoop state.index (params.program.bind pubkeyFromStr)
    (params.owner.bind pubkeyFromStr) events

end Rpc

/-! ## Association-list lemmas -/

theorem lookupA_insertA_self {κ α : Type} [DecidableEq κ] (k : κ) (v : α)
    (l : List (κ × α)) : lookupA k (insertA k v l) = some v := by
  induction l with
  | nil => simp [insertA, lookupA]
  | cons e rest ih =>
    by_cases h : e.1 = k
    · simp [insertA, h, lookupA]
    · simp [insertA, h, lookupA, ih]

theorem lookupA_insertA_ne {κ α : Type} [DecidableEq κ] {k k₂ : κ} (v : α)
    (l : List (κ × α)) (h : k₂ ≠ k) : lookupA k₂ (insertA k v l) = lookupA k₂ l := by
  have hks : k ≠ k₂ := fun hh => h hh.symm
  induction l with
  | nil => simp [insertA, lookupA, hks]
  | cons e rest ih =>
    obtain ⟨k₃, v₃⟩ := e
    by_cases he : k₃ = k
    · subst he
      simp [insertA, lookupA, hks]
    · simp only [insertA, if_neg he, lookupA]
      by_cases he₂ : k₃ = k₂ <;> simp [he₂, ih]

theorem mem_insertA {κ α : Type} [DecidableEq κ] {k : κ} {v : α} {e : κ × α}
    {l : List (κ × α)} (h : e ∈ insertA k v l) : e = (k, v) ∨ e ∈ l := by
  induction l with
  | nil => simpa [insertA] using h
  | cons e₂ rest ih =>
    by_cases he : e₂.1 = k
    · simp only [insertA, if_pos he, List.mem_cons] at h
      rcases h with h | h
      · exact .inl h
      · exact .inr (List.mem_cons_of_mem _ h)
    · simp only [insertA, if_neg he, List.mem_cons] at h
      rcases h with h | h
      · exact .inr (h ▸ List.mem_cons_self _ _)
      · rcases ih h with h₂ | h₂
        · exact .inl h₂
        · exact .inr (List.mem_cons_of_mem _ h₂)

theorem lookupA_mem {κ α : Type} [DecidableEq κ] {k : κ} {v : α}
    {l : List (κ × α)} (h : lookupA k l = some v) : (k, v) ∈ l := by
  induction l with
  | nil => simp [lookupA] at h
  | cons e rest ih =>
    by_cases he : e.1 = k
    · simp only [lookupA, if_pos he] at h
      obtain ⟨k₂, v₂⟩ := e
      cases h
      cases he
      exact List.mem_cons_self _ _
    · simp only [lookupA, if_neg he] at h
      exact List.mem_cons_of_mem _ (ih h)

theorem lookupA_eraseA_self {κ α : Type} [DecidableEq κ] (k : κ)
    (l : List (κ × α)) : lookupA k (eraseA k l) = none := by
  induction l with
  | nil => simp [eraseA, lookupA]
  | cons e rest ih =>
    by_cases he : e.1 = k
    · simpa [eraseA, he] using ih
    · simpa [eraseA, lookupA, he] using ih

theorem mem_eraseA {κ α : Type} [DecidableEq κ] {k : κ} {e : κ × α}
    {l : List (κ × α)} (h : e ∈ eraseA k l) : e ∈ l ∧ e.1 ≠ k := by
  have := List.mem_filter.1 h
  exact ⟨this.1, by simpa using this.2⟩

/-! ## Claim C1 — overflow-tier failures and the codec's panics -/

/-- **C1** (code bug): the claim says a corrupt overflow payload is treated as
an ordinary miss and never panics, and the `distributed` call sites in
`ShardedIndex::get`/`insert` are indeed written for a fallible codec
(`if let Ok(..) = decompress(..)`, `compress(..).unwrap()`); but
`fractal_rle::decompress` returns a bare `Vec<u8>` and aborts via
`expect("lz4 decoder")` on a payload that is not an LZ4 frame — evaluated here
on the one-byte corrupt payload `[0]`. -/
theorem C1_decompress_panics_on_corrupt_payload :
    decompress [0] = PanicOr.panic "lz4 decoder" := by decide

/-! ## Claim C2 — codec round trip -/

theorem decodeBlocksAux_mono :
    ∀ (f g : Nat) (input out : List Nat), f ≤ g →
      decodeBlocksAux f input = some out → decodeBlocksAux g input = some out := by
  intro f
  induction f with
  | zero => intro g input out _ h; simp [decodeBlocksAux] at h
  | succ f ih =>
    intro g input out hfg h
    obtain ⟨g, rfl⟩ : ∃ g₂, g = g₂ + 1 := ⟨g - 1, by omega⟩
    match input with
    | [] => simp [decodeBlocksAux] at h
    | [b0] => simp [decodeBlocksAux] at h
    | [b0, b1] => simp [decodeBlocksAux] at h
    | [b0, b1, b2] => simp [decodeBlocksAux] at h
    | b0 :: b1 :: b2 :: b3 :: rest =>
      simp only [decodeBlocksAux] at h ⊢
      by_cases h0 : b0 = 0 ∧ b1 = 0 ∧ b2 = 0 ∧ b3 = 0
      · rwa [if_pos h0] at h ⊢
      · rw [if_neg h0] at h ⊢
        by_cases h128 : 128 ≤ b3
        · rw [if_pos h128] at h ⊢
          by_cases hsz : b0 + 256 * b1 + 65536 * b2 + 16777216 * (b3 - 128) ≤ rest.length
          · rw [if_pos hsz] at h ⊢
            obtain ⟨tail, htail, hout⟩ := Option.map_eq_some'.1 h
            rw [ih g _ _ (by omega) htail]
            simpa using hout
          · rw [if_neg hsz] at h; exact absurd h (by simp)
        · rw [if_neg h128] at h; exact absurd h (by simp)

theorem encodeBlocksAux_length_le :
    ∀ (f : Nat) (x : List Nat), x.length ≤ f →
      x.length ≤ (encodeBlocksAux (f + 1) x).length := by
  intro f
  induction f with
  | zero =>
    intro x hx
    have hx0 : x = [] := List.length_eq_zero.1 (Nat.le_zero.1 hx)
    subst hx0
    simp [encodeBlocksAux]
  | succ f ih =>
    intro x hx
    by_cases hx0 : x = []
    · subst hx0; simp [encodeBlocksAux]
    · have hlen : 0 < x.length := List.length_pos.2 hx0
      have hrec := ih (x.drop 65536) (by simp only [List.length_drop]; omega)
      simp only [encodeBlocksAux, if_neg hx0, List.length_append, blockHeader,
        List.length_cons, List.length_nil, List.length_take, List.length_drop] at hrec ⊢
      omega

theorem decodeBlocksAux_encodeBlocksAux :
    ∀ (f : Nat) (x : List Nat), x.length ≤ f →
      decodeBlocksAux (f + 1) (encodeBlocksAux (f + 1) x) = some x := by
  intro f
  induction f with
  | zero =>
    intro x hx
    have hx0 : x = [] := List.length_eq_zero.1 (Nat.le_zero.1 hx)
    subst hx0
    simp [encodeBlocksAux, decodeBlocksAux]
  | succ f ih =>
    intro x hx
    by_cases hx0 : x = []
    · subst hx0; simp [encodeBlocksAux, decodeBlocksAux]
    · have hlen : 0 < x.length := List.length_pos.2 hx0
      set m := min x.length 65536 with hm
      have hm1 : 0 < m := by omega
      have hm2 : m ≤ 65536 := by omega
      have htake : (x.take 65536).length = m := by
        simp [List.length_take, hm, Nat.min_comm]
      rw [encodeBlocksAux, if_neg hx0, blockHeader]
      simp only [List.cons_append, List.nil_append, ← hm]
      rw [decodeBlocksAux]
      rw [if_neg (by omega)]
      rw [if_pos (by omega : 128 ≤ 128)]
      simp only []
      have hsize : m % 256 + 256 * (m / 256 % 256) + 65536 * (m / 65536 % 256)
          + 16777216 * (128 - 128) = m := by omega
      rw [hsize]
      rw [if_pos (by simp [htake] : m ≤ (x.take 65536 ++ encodeBlocksAux (f + 1) (x.drop 65536)).length)]
      have hdrop : (x.take 65536 ++ encodeBlocksAux (f + 1) (x.drop 65536)).drop m
          = encodeBlocksAux (f + 1) (x.drop 65536) := by
        rw [← htake]; exact List.drop_left _ _
      have htk : (x.take 65536 ++ encodeBlocksAux (f + 1) (x.drop 65536)).take m = x.take 65536 := by
        rw [← htake]; exact List.take_left _ _
      rw [hdrop, htk]
      rw [ih (x.drop 65536) (by simp only [List.length_drop]; omega)]
      simp

/-- **C2** (confirmed): `decompress(compress(x)) = x` for every byte sequence,
the empty one included.  The codec itself lives in the external `lz4` crate;
its frame format is modelled here (uncompressed blocks), so the theorem
verifies the repository's wrapper against that model. -/
theorem C2_codec_round_trip (x : List Nat) : decompress (compress x) = PanicOr.ok x := by
  have h1 : lz4FrameHeader (compress x) = some (encodeBlocks x) := rfl
  have h2 : decodeBlocksAux (x.length + 1) (encodeBlocks x) = some x :=
    decodeBlocksAux_encodeBlocksAux x.length x (Nat.le_refl _)
  have h3 : decodeBlocks (encodeBlocks x) = some x := by
    apply decodeBlocksAux_mono (x.length + 1) _ _ _ _ h2
    have := encodeBlocksAux_length_le x.length x (Nat.le_refl _)
    simpa [encodeBlocks] using Nat.succ_le_succ this
  rw [decompress, h1]
  simp [h3]

/-! ## Claim C3 — insert-then-get round trip -/

/-- **C3** (confirmed): with no overflow tier configured, `insert(k, r)`
followed by `get(k)` returns a record equal to `r` on every field (`Account`
equality in this embedding is field-wise). -/
theorem C3_insert_then_get (ix : ShardedIndex) (k : Pubkey) (r : Account) :
    (ix.insert k r).get k = some r := by
  simp only [ShardedIndex.insert, ShardedIndex.get, if_pos rfl]
  exact lookupA_insertA_self k r _

/-! ## Reachable-state invariants of the sharded index -/

/-- States reachable by inserting only `allowed` records: every shard entry
sits in the shard its key hashes to and was one of the inserted pairs, and
every owner-bucket member was inserted with that owner at least once. -/
def ShardInv (allowed : List (Pubkey × Account)) (ix : ShardedIndex) : Prop :=
  (∀ i e, e ∈ ix.shards i → shard_index e.1 = i ∧ e ∈ allowed) ∧
  (∀ P bucket, lookupA P ix.owner_index = some bucket →
     ∀ k ∈ bucket, ∃ a, (k, a) ∈ allowed ∧ a.owner = P)

theorem shardInv_empty (allowed : List (Pubkey × Account)) :
    ShardInv allowed ShardedIndex.empty := by
  constructor
  · intro i e he; simp [ShardedIndex.empty] at he
  · intro P bucket hb; simp [ShardedIndex.empty, lookupA] at hb

theorem shardInv_insert {allowed : List (Pubkey × Account)} {ix : ShardedIndex}
    {k : Pubkey} {a : Account} (h : ShardInv allowed ix) (hka : (k, a) ∈ allowed) :
    ShardInv allowed (ix.insert k a) := by
  obtain ⟨hsh, hbk⟩ := h
  constructor
  · intro i e he
    simp only [ShardedIndex.insert] at he
    by_cases hi : i = shard_index k
    · rw [if_pos hi] at he
      rcases mem_insertA he with he₂ | he₂
      · subst he₂; exact ⟨hi.symm, hka⟩
      · exact hsh i e he₂
    · rw [if_neg hi] at he
      exact hsh i e he
  · intro P bucket hb k₂ hk₂
    simp only [ShardedIndex.insert] at hb
    by_cases hP : a.owner = P
    · subst hP
      rw [lookupA_insertA_self] at hb
      cases hb
      by_cases hkin : k ∈ (lookupA a.owner ix.owner_index).getD []
      · rw [if_pos hkin] at hk₂
        cases hold : lookupA a.owner ix.owner_index with
        | none => simp [hold] at hk₂
        | some b₀ =>
          rw [hold] at hk₂
          exact hbk a.owner b₀ hold k₂ hk₂
      · rw [if_neg hkin] at hk₂
        rcases List.mem_append.1 hk₂ with hk₃ | hk₃
        · cases hold : lookupA a.owner ix.owner_index with
          | none => rw [hold] at hk₃; simp at hk₃
          | some b₀ =>
            rw [hold] at hk₃
            exact hbk a.owner b₀ hold k₂ hk₃
        · have : k₂ = k := by simpa using hk₃
          subst this
          exact ⟨a, hka, rfl⟩
    · rw [lookupA_insertA_ne _ _ (fun hh => hP hh.symm)] at hb
      exact hbk P bucket hb k₂ hk₂

theorem shardInv_foldl (allowed : List (Pubkey × Account)) :
    ∀ (ops : List (Pubkey × Account)) (ix : ShardedIndex), ShardInv allowed ix →
      (∀ e ∈ ops, e ∈ allowed) →
      ShardInv allowed (ops.foldl (fun ix e => ix.insert e.1 e.2) ix) := by
  intro ops
  induction ops with
  | nil => intro ix h _; exact h
  | cons e ops ih =>
    intro ix h hall
    simp only [List.foldl_cons]
    exact ih _ (shardInv_insert h (by simpa using hall e (List.mem_cons_self _ _)))
      (fun e₂ he₂ => hall e₂ (List.mem_cons_of_mem _ he₂))

theorem shardInv_applyInserts (ops : List (Pubkey × Account)) :
    ShardInv ops (applyInserts ops) :=
  shardInv_foldl ops ops ShardedIndex.empty (shardInv_empty ops) (fun _ h => h)

/-! ## Claim C4 — owner-scoped queries -/

/-- **C4** (counterexample): reinserting key `0…0` first under owner `7…7`
and then under owner `9…9` leaves the key in owner `7…7`'s bucket; the
owner-index fast path of `get_program_accounts(7…7)` then returns the current
record, whose owner is `9…9 ≠ 7…7` — the fast path never re-checks the
owner. -/
theorem C4_counterexample_reinserted_owner :
    (⟨List.replicate 32 0⟩, (⟨6, [], ⟨List.replicate 32 9⟩, false, 0⟩ : Account)) ∈
      (applyInserts [(⟨List.replicate 32 0⟩, ⟨5, [], ⟨List.replicate 32 7⟩, false, 0⟩),
                     (⟨List.replicate 32 0⟩, ⟨6, [], ⟨List.replicate 32 9⟩, false, 0⟩)]).get_program_accounts
        ⟨List.replicate 32 7⟩ ∧
    (Account.mk 6 [] ⟨List.replicate 32 9⟩ false 0).owner ≠ ⟨List.replicate 32 7⟩ := by
  decide

/-- **C4** (amended): in every state reachable by inserts in which no key is
re-inserted with a different owner, every pair returned by
`get_program_accounts(P)` has a record owned by `P`, on the owner-index fast
path and on the full-scan fallback alike. -/
theorem C4_amended_owner_query_sound (ops : List (Pubkey × Account)) (P p : Pubkey)
    (a : Account)
    (hcons : ∀ e₁ ∈ ops, ∀ e₂ ∈ ops, Prod.fst e₁ = Prod.fst e₂ → e₁.2.owner = e₂.2.owner)
    (hmem : (p, a) ∈ (applyInserts ops).get_program_accounts P) :
    a.owner = P := by
  obtain ⟨hsh, hbk⟩ := shardInv_applyInserts ops
  rw [ShardedIndex.get_program_accounts] at hmem
  cases hb : lookupA P (applyInserts ops).owner_index with
  | none =>
    rw [hb] at hmem
    obtain ⟨i, _, hmem₂⟩ := List.mem_flatMap.1 hmem
    exact of_decide_eq_true (List.mem_filter.1 hmem₂).2
  | some vec =>
    rw [hb] at hmem
    obtain ⟨pk, hpk, hmap⟩ := List.mem_filterMap.1 hmem
    obtain ⟨acc, hget, heq⟩ := Option.map_eq_some'.1 hmap
    obtain ⟨hpkp, hacca⟩ : pk = p ∧ acc = a := by
      constructor <;> { cases heq; rfl }
    rw [hpkp] at hpk
    rw [hpkp, hacca] at hget
    have hmem₃ : (p, a) ∈ ops := by
      have := lookupA_mem hget
      exact (hsh _ _ this).2
    obtain ⟨a₂, ha₂, howner⟩ := hbk P vec hb p hpk
    rw [hcons (p, a) hmem₃ (p, a₂) ha₂ rfl]
    exact howner

/-- **C4** witness for the amended theorem: two inserts of distinct keys under
the same owner; the owner query returns the second record, owned by that
owner. -/
theorem C4_amended_owner_query_sound_witness :
    (Account.mk 6 [] ⟨List.replicate 32 7⟩ false 0).owner = ⟨List.replicate 32 7⟩ :=
  C4_amended_owner_query_sound
    [(⟨List.replicate 32 0⟩, ⟨5, [], ⟨List.replicate 32 7⟩, false, 0⟩),
     (⟨List.replicate 31 0 ++ [1]⟩, ⟨6, [], ⟨List.replicate 32 7⟩, false, 0⟩)]
    ⟨List.replicate 32 7⟩ ⟨List.replicate 31 0 ++ [1]⟩ ⟨6, [], ⟨List.replicate 32 7⟩, false, 0⟩
    (by decide) (by decide)

/-! ## Claim C9 — remove -/

/-- **C9** (confirmed, spec-modelled `remove`): after `remove(k)` on any
state reachable by inserts, `get(k)` is `none`; no owner query returns `k`
(stale bucket entries are dropped on the fast path because `get` fails, and
the full scan no longer holds `k`); and the owner index itself is untouched —
the bucket may still reference `k` internally. -/
theorem C9_remove_primary_only (ops : List (Pubkey × Account)) (k : Pubkey) :
    ((applyInserts ops).remove k).get k = none ∧
    (∀ P p a, (p, a) ∈ ((applyInserts ops).remove k).get_program_accounts P → p ≠ k) ∧
    ((applyInserts ops).remove k).owner_index = (applyInserts ops).owner_index := by
  obtain ⟨hsh, _⟩ := shardInv_applyInserts ops
  have hget : ((applyInserts ops).remove k).get k = none := by
    simp only [ShardedIndex.remove, ShardedIndex.get, if_pos rfl]
    exact lookupA_eraseA_self k _
  refine ⟨hget, ?_, rfl⟩
  intro P p a hmem
  rw [ShardedIndex.get_program_accounts] at hmem
  cases hb : lookupA P ((applyInserts ops).remove k).owner_index with
  | none =>
    rw [hb] at hmem
    obtain ⟨i, _, hmem₂⟩ := List.mem_flatMap.1 hmem
    have hmem₃ := (List.mem_filter.1 hmem₂).1
    simp only [ShardedIndex.remove] at hmem₃
    by_cases hi : i = shard_index k
    · rw [if_pos hi] at hmem₃
      exact (mem_eraseA hmem₃).2
    · rw [if_neg hi] at hmem₃
      intro hpk
      subst hpk
      exact hi ((hsh i _ hmem₃).1.symm)
  | some vec =>
    rw [hb] at hmem
    obtain ⟨pk, hpk, hmap⟩ := List.mem_filterMap.1 hmem
    obtain ⟨acc, hget₂, heq⟩ := Option.map_eq_some'.1 hmap
    have hpkp : pk = p := by cases heq; rfl
    subst hpkp
    intro hpk₂
    subst hpk₂
    rw [hget] at hget₂
    exact Option.noConfusion hget₂

/-! ## Claim C8 — conjunctive filters and out-of-range memcmp -/

/-- **C8** (confirmed): `apply_filters` keeps a pair exactly when the record
passes every supplied filter, and a memcmp filter whose
`offset + pattern length` exceeds the record's data length evaluates to
`false` (exclusion, not an error). -/
theorem C8_filters_conjunctive (accounts : List (Pubkey × Account))
    (fs : List Rpc.Filter) (p : Pubkey) (a : Account) (off : Nat) (bytes : String)
    (hrange : a.data.length < off + ((base64Decode bytes).getD []).length) :
    ((p, a) ∈ Rpc.apply_filters accounts fs ↔
      ((p, a) ∈ accounts ∧ ∀ f ∈ fs, Rpc.filterPass a f = true)) ∧
    Rpc.filterPass a (.memcmp off bytes) = false := by
  constructor
  · simp [Rpc.apply_filters, List.mem_filter, List.all_eq_true]
  · simp only [Rpc.filterPass]
    rw [if_pos hrange]

/-- **C8** witness: a concrete record, one passing datasize filter and one
out-of-range memcmp filter. -/
theorem C8_filters_conjunctive_witness :
    ((⟨[1]⟩, (⟨2, [5, 6], ⟨[3]⟩, false, 0⟩ : Account)) ∈
        Rpc.apply_filters [(⟨[1]⟩, ⟨2, [5, 6], ⟨[3]⟩, false, 0⟩)] [.dataSize 2] ↔
      ((⟨[1]⟩, (⟨2, [5, 6], ⟨[3]⟩, false, 0⟩ : Account)) ∈
          [((⟨[1]⟩ : Pubkey), (⟨2, [5, 6], ⟨[3]⟩, false, 0⟩ : Account))] ∧
        ∀ f ∈ [Rpc.Filter.dataSize 2],
          Rpc.filterPass ⟨2, [5, 6], ⟨[3]⟩, false, 0⟩ f = true)) ∧
    Rpc.filterPass ⟨2, [5, 6], ⟨[3]⟩, false, 0⟩ (.memcmp 1 "AAEC") = false :=
  C8_filters_conjunctive [(⟨[1]⟩, ⟨2, [5, 6], ⟨[3]⟩, false, 0⟩)] [.dataSize 2]
    ⟨[1]⟩ ⟨2, [5, 6], ⟨[3]⟩, false, 0⟩ 1 "AAEC" (by decide)

/-! ## Claim C10 — malformed memcmp patterns -/

/-- **C10** (confirmed): a memcmp filter whose `bytes` field is not valid
base64 silently decodes to the empty pattern (`unwrap_or_default`), so the
record passes exactly when `offset ≤ data.len()`; no error reaches the
client. -/
theorem C10_malformed_memcmp_empty_pattern (a : Account) (off : Nat) (s : String)
    (hbad : base64Decode s = none) :
    (Rpc.filterPass a (.memcmp off s) = true ↔ off ≤ a.data.length) := by
  simp only [Rpc.filterPass, hbad, Option.getD_none, List.length_nil, Nat.add_zero,
    List.take_zero]
  by_cases h : a.data.length < off
  · rw [if_pos h]
    simp
    omega
  · rw [if_neg h]
    simp
    omega

/-- **C10** witness: the one-character pattern `"!"` is malformed base64; a
record with one data byte passes the filter at offset 1. -/
theorem C10_malformed_memcmp_empty_pattern_witness :
    Rpc.filterPass ⟨2, [9], ⟨[]⟩, false, 0⟩ (.memcmp 1 "!") = true ↔
      1 ≤ (Account.mk 2 [9] ⟨[]⟩ false 0).data.length :=
  C10_malformed_memcmp_empty_pattern ⟨2, [9], ⟨[]⟩, false, 0⟩ 1 "!" (by decide)

/-! ## Claim C7 — pagination -/

theorem paginate_offset_ge {α : Type} (off : Nat) (lim : Option Nat) (xs : List α)
    (h : xs.length ≤ off) : Rpc.paginate (some off) lim xs = [] := by
  simp only [Rpc.paginate]
  rw [if_neg (by omega)]
  cases lim <;> simp

theorem paginate_limit_le {α : Type} (off : Option Nat) (lim : Nat) (xs : List α) :
    (Rpc.paginate off (some lim) xs).length ≤ lim := by
  cases off with
  | none => simp [Rpc.paginate, List.length_take]
  | some o =>
    by_cases h : o < xs.length <;> simp [Rpc.paginate, h, List.length_take]

/-- **C7** (confirmed): in both paginated handlers (`get_program_accounts`,
`get_token_accounts_by_owner`) the offset is applied before the limit;
an offset at or past the filtered result count yields `Ok([])`, never an
error; and a successful response never exceeds the requested limit. -/
theorem C7_pagination (st : Rpc.AppState) (hs : Rpc.Headers)
    (reqG1 reqG2 : Rpc.GetProgramAccountsReq)
    (reqT1 reqT2 : Rpc.GetTokenAccountsByOwnerReq)
    (pG oT : Pubkey) (offG offT limG limT : Nat)
    (outG outT : List Rpc.AccountResp) (ysT : List (Pubkey × Account))
    (hck : Rpc.check_api_key st hs = .ok ())
    (hpG : pubkeyFromStr reqG1.program = some pG)
    (hoffG : reqG1.offset = some offG)
    (hcntG : (Rpc.gpaFiltered st.index pG reqG1.filters).length ≤ offG)
    (hpT : pubkeyFromStr reqT1.owner = some oT)
    (hmintT : Rpc.tokenMintFiltered (Rpc.tokenCandidates st.index oT) reqT1.mint = .ok ysT)
    (hoffT : reqT1.offset = some offT)
    (hcntT : ysT.length ≤ offT)
    (hlimG : reqG2.limit = some limG)
    (houtG : Rpc.get_program_accounts st hs reqG2 = .ok outG)
    (hlimT : reqT2.limit = some limT)
    (houtT : Rpc.get_token_accounts_by_owner st hs reqT2 = .ok outT) :
    Rpc.get_program_accounts st hs reqG1 = .ok [] ∧
    Rpc.get_token_accounts_by_owner st hs reqT1 = .ok [] ∧
    outG.length ≤ limG ∧ outT.length ≤ limT := by
  refine ⟨?_, ?_, ?_, ?_⟩
  · simp only [Rpc.get_program_accounts, hck, hpG, hoffG]
    rw [paginate_offset_ge offG reqG1.limit _ hcntG]
    simp
  · simp only [Rpc.get_token_accounts_by_owner, hck, hpT, hmintT, hoffT]
    rw [paginate_offset_ge offT reqT1.limit _ hcntT]
    simp
  · simp only [Rpc.get_program_accounts, hck] at houtG
    cases hp2 : pubkeyFromStr reqG2.program with
    | none => simp [hp2] at houtG
    | some p2 =>
      simp only [hp2] at houtG
      have houtG₂ := Except.ok.inj houtG
      rw [← houtG₂, List.length_map, hlimG]
      exact paginate_limit_le _ _ _
  · simp only [Rpc.get_token_accounts_by_owner, hck] at houtT
    cases hp2 : pubkeyFromStr reqT2.owner with
    | none => simp [hp2] at houtT
    | some o2 =>
      simp only [hp2] at houtT
      cases hm2 : Rpc.tokenMintFiltered (Rpc.tokenCandidates st.index o2) reqT2.mint with
      | error e => simp [hm2] at houtT
      | ok ys2 =>
        simp only [hm2] at houtT
        have houtT₂ := Except.ok.inj houtT
        rw [← houtT₂, List.length_map, hlimT]
        exact paginate_limit_le _ _ _

/-- **C7** witness: a one-account index; offset 5 on a one-element result
yields `Ok([])` in both handlers, and limit-0 requests return no more than 0
records. -/
theorem C7_pagination_witness :
    Rpc.get_program_accounts
        ⟨ShardedIndex.empty.insert ⟨List.replicate 32 0⟩
          ⟨5, [], ⟨List.replicate 31 0 ++ [1]⟩, false, 0⟩, none, "d"⟩ []
        ⟨"11111111111111111111111111111112", none, some 5, none⟩ = .ok [] ∧
    Rpc.get_token_accounts_by_owner
        ⟨ShardedIndex.empty.insert ⟨List.replicate 32 0⟩
          ⟨5, [], ⟨List.replicate 31 0 ++ [1]⟩, false, 0⟩, none, "d"⟩ []
        ⟨"11111111111111111111111111111112", none, none, some 5⟩ = .ok [] ∧
    ([] : List Rpc.AccountResp).length ≤ 0 ∧ ([] : List Rpc.AccountResp).length ≤ 0 :=
  C7_pagination
    ⟨ShardedIndex.empty.insert ⟨List.replicate 32 0⟩
      ⟨5, [], ⟨List.replicate 31 0 ++ [1]⟩, false, 0⟩, none, "d"⟩ []
    ⟨"11111111111111111111111111111112", none, some 5, none⟩
    ⟨"11111111111111111111111111111112", some 0, none, none⟩
    ⟨"11111111111111111111111111111112", none, none, some 5⟩
    ⟨"11111111111111111111111111111112", none, some 0, none⟩
    ⟨List.replicate 31 0 ++ [1]⟩ ⟨List.replicate 31 0 ++ [1]⟩ 5 5 0 0 [] []
    (Rpc.tokenCandidates
      (ShardedIndex.empty.insert ⟨List.replicate 32 0⟩
        ⟨5, [], ⟨List.replicate 31 0 ++ [1]⟩, false, 0⟩)
      ⟨List.replicate 31 0 ++ [1]⟩)
    rfl (by decide) rfl (by decide) (by decide) rfl rfl (by decide) rfl rfl rfl rfl

/-! ## Claim C5 — API-key authentication -/

theorem check_api_key_rejects {st : Rpc.AppState} {hs : Rpc.Headers} {key : String}
    (hkey : st.api_key = some key) (hhdr : Rpc.headerGet hs "x-api-key" ≠ some key) :
    Rpc.check_api_key st hs = .error (401, "missing or invalid API key") := by
  rw [Rpc.check_api_key, hkey]
  cases hg : Rpc.headerGet hs "x-api-key" with
  | none => rfl
  | some got =>
    have hgk : got ≠ key := fun hh => hhdr (by rw [hg, hh])
    simp [hgk]

theorem wsLoop_no_filter (ix : ShardedIndex) (events : List Rpc.WsEvent) :
    Rpc.wsLoop ix none none events = events := by
  induction events with
  | nil => rfl
  | cons e rest ih => cases e <;> simp [Rpc.wsLoop, Rpc.wsEventPass, ih]

/-- **C5** (counterexample): with an API key configured, a websocket
subscription with no `x-api-key` header (no headers reach the handler at all)
is still served — events are delivered — even though `check_api_key` would
reject the same state/headers; `websocket_handler` never validates the key. -/
theorem C5_counterexample_websocket_unauthenticated :
    Rpc.websocket_handler ⟨ShardedIndex.empty, some "secret", "d"⟩ ⟨none, none⟩
        [.slotUpdated 1] = [.slotUpdated 1] ∧
    Rpc.check_api_key ⟨ShardedIndex.empty, some "secret", "d"⟩ [] =
      .error (401, "missing or invalid API key") :=
  ⟨rfl, rfl⟩

/-- **C5** (amended): when an API key is configured, the six HTTP query
endpoints (`getProgramAccounts`, `getMultipleAccounts`, `getAccountInfo`,
`getTokenAccountsByOwner`, `getLargestTokenAccounts`, `simulateTransaction`)
reject a missing or mismatched `x-api-key` header with 401 before any index
work (the result is the same for every index state); the websocket subscribe
endpoint, however, performs no API-key validation and serves the
subscription regardless. -/
theorem C5_amended_auth_all_http_endpoints (st : Rpc.AppState) (hs : Rpc.Headers)
    (key : String) (reqG : Rpc.GetProgramAccountsReq) (reqM : Rpc.GetMultipleAccountsReq)
    (reqA : Rpc.GetAccountInfoReq) (reqT : Rpc.GetTokenAccountsByOwnerReq)
    (reqL : Rpc.GetLargestTokenAccountsReq)
    (downstream : String → String → Except String (Nat × String)) (body : String)
    (events : List Rpc.WsEvent)
    (hkey : st.api_key = some key)
    (hhdr : Rpc.headerGet hs "x-api-key" ≠ some key) :
    Rpc.get_program_accounts st hs reqG = .error (401, "missing or invalid API key") ∧
    Rpc.get_multiple_accounts st hs reqM = .error (401, "missing or invalid API key") ∧
    Rpc.get_account_info st hs reqA = .error (401, "missing or invalid API key") ∧
    Rpc.get_token_accounts_by_owner st hs reqT = .error (401, "missing or invalid API key") ∧
    Rpc.get_largest_token_accounts st hs reqL = .error (401, "missing or invalid API key") ∧
    Rpc.simulate_transaction st hs downstream body = .error (401, "missing or invalid API key") ∧
    Rpc.websocket_handler st ⟨none, none⟩ events = events := by
  have hchk := check_api_key_rejects hkey hhdr
  refine ⟨?_, ?_, ?_, ?_, ?_, ?_, ?_⟩
  · simp [Rpc.get_program_accounts, hchk]
  · simp [Rpc.get_multiple_accounts, hchk]
  · simp [Rpc.get_account_info, hchk]
  · simp [Rpc.get_token_accounts_by_owner, hchk]
  · simp [Rpc.get_largest_token_accounts, hchk]
  · simp [Rpc.simulate_transaction, hchk]
  · simp only [Rpc.websocket_handler, Option.bind]
    exact wsLoop_no_filter _ _

/-- **C5** witness for the amended theorem, at a concrete state with key
`"secret"` and an empty header list. -/
theorem C5_amended_auth_all_http_endpoints_witness :
    Rpc.get_program_accounts ⟨ShardedIndex.empty, some "secret", "d"⟩ []
        ⟨"x", none, none, none⟩ = .error (401, "missing or invalid API key") ∧
    Rpc.get_multiple_accounts ⟨ShardedIndex.empty, some "secret", "d"⟩ []
        ⟨["x"]⟩ = .error (401, "missing or invalid API key") ∧
    Rpc.get_account_info ⟨ShardedIndex.empty, some "secret", "d"⟩ []
        ⟨"x"⟩ = .error (401, "missing or invalid API key") ∧
    Rpc.get_token_accounts_by_owner ⟨ShardedIndex.empty, some "secret", "d"⟩ []
        ⟨"x", none, none, none⟩ = .error (401, "missing or invalid API key") ∧
    Rpc.get_largest_token_accounts ⟨ShardedIndex.empty, some "secret", "d"⟩ []
        ⟨"x", none⟩ = .error (401, "missing or invalid API key") ∧
    Rpc.simulate_transaction ⟨ShardedIndex.empty, some "secret", "d"⟩ []
        (fun _ _ => .ok (200, "")) "b" = .error (401, "missing or invalid API key") ∧
    Rpc.websocket_handler ⟨ShardedIndex.empty, some "secret", "d"⟩ ⟨none, none⟩
        [.slotUpdated 1] = [.slotUpdated 1] :=
  C5_amended_auth_all_http_endpoints ⟨ShardedIndex.empty, some "secret", "d"⟩ [] "secret"
    ⟨"x", none, none, none⟩ ⟨["x"]⟩ ⟨"x"⟩ ⟨"x", none, none, none⟩ ⟨"x", none⟩
    (fun _ _ => .ok (200, "")) "b" [.slotUpdated 1] rfl (by decide)

/-! ## Claim C6 — owner-filtered subscriptions -/

/-- **C6** (counterexample): key `0…01` (base58 `111…12`) is owned by the
zero key `O = 0…0` in the index, yet a subscription with owner filter `O`
does **not** receive its `AccountUpdated` event — the owner branch of
`handle_socket` compares the event key string with `O`'s text form instead of
resolving the key through the index. -/
theorem C6_counterexample_owner_filter_compares_key :
    Rpc.wsLoop
        (ShardedIndex.empty.insert ⟨List.replicate 31 0 ++ [1]⟩
          ⟨5, [], ⟨List.replicate 32 0⟩, false, 0⟩)
        none (some ⟨List.replicate 32 0⟩)
        [.accountUpdated "11111111111111111111111111111112" 5 7] = [] ∧
    (ShardedIndex.empty.insert ⟨List.replicate 31 0 ++ [1]⟩
        ⟨5, [], ⟨List.replicate 32 0⟩, false, 0⟩).get ⟨List.replicate 31 0 ++ [1]⟩ =
      some ⟨5, [], ⟨List.replicate 32 0⟩, false, 0⟩ ∧
    pubkeyToString ⟨List.replicate 31 0 ++ [1]⟩ = "11111111111111111111111111111112" := by
  refine ⟨by decide, by decide, by decide⟩

/-- **C6** (amended): a subscription carrying an owner filter `O` (and no
program filter) receives exactly the `AccountUpdated` events whose key string
equals `O`'s text form — a direct key comparison with no index lookup — plus
every `SlotUpdated` event.  (The index lookup described by the claim is what
the `program` filter performs.) -/
theorem C6_amended_owner_filter_is_key_match (ix : ShardedIndex) (o : Pubkey)
    (events : List Rpc.WsEvent) :
    Rpc.wsLoop ix none (some o) events = events.filter (fun e =>
      match e with
      | .accountUpdated pk _ _ => decide (pk = pubkeyToString o)
      | .slotUpdated _ => true) := by
  induction events with
  | nil => rfl
  | cons e rest ih =>
    cases e with
    | accountUpdated pk l s =>
      by_cases h : pk = pubkeyToString o <;>
        simp [Rpc.wsLoop, Rpc.wsEventPass, h, ih, List.filter]
    | slotUpdated s => simp [Rpc.wsLoop, Rpc.wsEventPass, ih, List.filter]

end SolanaFractal
